import Mathlib

/-!
Verification development for the ApexLOB order-book and alpha-signal monitor.

The order book (src/OrderBook.h, src/Order.h) is embedded over ℚ: the C++
stores prices as IEEE doubles but only compares, adds and multiplies them,
and every concrete scenario in the spec uses short decimal values, so exact
rationals model the arithmetic faithfully.  Quantities are uint32_t in the
source; they are modelled as ℕ (all reachable states keep them within
bounds, and no claim concerns 32-bit wraparound).

The signal engine (src/AlphaSignalGenerator.h) is embedded over ℝ because
calculateVolatility applies std::sqrt.
-/

namespace ApexLOB

/-- Side of an order (src/Order.h, `enum class Side`). -/
inductive Side where
  | Buy
  | Sell
deriving DecidableEq, Repr

/-- src/Order.h `struct Order`.  The C++ `entryTime` field is set from a
monotonic clock and never read by the matching logic, so it is omitted.
`quantity` is the mutable remaining quantity. -/
structure Order where
  id : ℕ
  price : ℚ
  quantity : ℕ
  side : Side
deriving DecidableEq, Repr

/-- src/Order.h `struct LimitLevel`: a price, a running total volume and the
FIFO queue of resting orders (front of the list = oldest). -/
structure LimitLevel where
  price : ℚ
  totalVolume : ℕ
  orders : List Order
deriving DecidableEq, Repr

/-- One match event: the resting level price and the traded quantity.  The
C++ updates `lastTradePrice`, `totalVolumeTraded` and `cumulativeNotional`
inline at each trade; here each trade is recorded as a `Fill` in
chronological order and the three statistics are folded over that list (see
`applyFill`), which performs the identical updates in the identical order. -/
structure Fill where
  price : ℚ
  qty : ℕ
deriving DecidableEq, Repr

/-- src/OrderBook.h `class OrderBook`.  The two `std::map`s keyed by price
(bids with `std::greater`, asks with `std::less`) are modelled as lists of
levels sorted in the map's iteration order: `bids` descending by price,
`asks` ascending by price. -/
structure OrderBook where
  bids : List LimitLevel
  asks : List LimitLevel
  lastTradePrice : ℚ
  totalVolumeTraded : ℕ
  cumulativeNotional : ℚ
deriving DecidableEq, Repr

/-- The price-compatibility test of `OrderBook::matchOrder`:
`(order->side == Side::Buy) ? (order->price >= it->first) : (order->price <= it->first)`. -/
def canMatch (side : Side) (orderPrice levelPrice : ℚ) : Bool :=
  match side with
  | Side.Buy => orderPrice ≥ levelPrice
  | Side.Sell => orderPrice ≤ levelPrice

/-- The inner while loop of `OrderBook::matchOrder`: walk the FIFO queue of a
level at price `lp`, trading `min(order.quantity, resting.quantity)` at each
step while the aggressor has quantity left; fully filled resting orders are
erased.  Returns the remaining aggressor quantity, the remaining queue, and
the fills in chronological order. -/
def matchLevelOrders : ℕ → ℚ → List Order → ℕ × List Order × List Fill
  | q, _, [] => (q, [], [])
  | q, lp, r :: rest =>
    if q = 0 then (q, r :: rest, [])
    else
      let traded := min q r.quantity
      let rq := r.quantity - traded
      let res := matchLevelOrders (q - traded) lp rest
      if rq = 0 then (res.1, res.2.1, ⟨lp, traded⟩ :: res.2.2)
      else (res.1, { r with quantity := rq } :: res.2.1, ⟨lp, traded⟩ :: res.2.2)

/-- The outer while loop of `OrderBook::matchOrder`: walk the opposite side in
iteration (best-first) order while the aggressor has quantity left and the
price-compatibility test holds; each level's `totalVolume` is decremented by
the quantity traded there, and a level whose queue empties is erased. -/
def matchOrder : Side → ℚ → ℕ → List LimitLevel → ℕ × List LimitLevel × List Fill
  | _, _, q, [] => (q, [], [])
  | side, price, q, lvl :: rest =>
    if q = 0 then (q, lvl :: rest, [])
    else if canMatch side price lvl.price then
      let res := matchLevelOrders q lvl.price lvl.orders
      let res2 := matchOrder side price res.1 rest
      if res.2.1.isEmpty then (res2.1, res2.2.1, res.2.2 ++ res2.2.2)
      else
        (res2.1,
         { lvl with totalVolume := lvl.totalVolume - (res.2.2.map Fill.qty).sum,
                    orders := res.2.1 } :: res2.2.1,
         res.2.2 ++ res2.2.2)
    else (q, lvl :: rest, [])

/-- `OrderBook::addLimit` on a side held as a sorted list: `before a b` is the
map's key order (`std::greater` for bids, `std::less` for asks).  An existing
level at the order's price gets `totalVolume += quantity` and the order
appended (`push_back`); otherwise a fresh level (value-initialized
`totalVolume = 0`) is created at the map position given by the key order. -/
def addLimit (before : ℚ → ℚ → Bool) (o : Order) : List LimitLevel → List LimitLevel
  | [] => [{ price := o.price, totalVolume := o.quantity, orders := [o] }]
  | lvl :: rest =>
    if o.price = lvl.price then
      { lvl with price := o.price, totalVolume := lvl.totalVolume + o.quantity,
                 orders := lvl.orders ++ [o] } :: rest
    else if before o.price lvl.price then
      { price := o.price, totalVolume := o.quantity, orders := [o] } :: lvl :: rest
    else lvl :: addLimit before o rest

/-- Key order of the bids map (`std::greater<double>`). -/
def bidBefore (a b : ℚ) : Bool := b < a

/-- Key order of the asks map (`std::less<double>`). -/
def askBefore (a b : ℚ) : Bool := a < b

/-- The inline statistics updates performed at one trade in
`OrderBook::matchOrder`: `lastTradePrice = it->first;
totalVolumeTraded += tradedQty; cumulativeNotional += tradedQty * lastTradePrice`. -/
def applyFill (b : OrderBook) (f : Fill) : OrderBook :=
  { b with lastTradePrice := f.price,
           totalVolumeTraded := b.totalVolumeTraded + f.qty,
           cumulativeNotional := b.cumulativeNotional + (f.qty : ℚ) * f.price }

/-- Fold the per-trade statistics updates over the fills in chronological
order. -/
def applyFills (b : OrderBook) (fs : List Fill) : OrderBook := fs.foldl applyFill b

/-- `OrderBook::submitOrder`, additionally returning the list of fills the
submission produced.  A buy matches against asks and any remainder rests on
bids; a sell matches against bids and any remainder rests on asks. -/
def submitOrderWithFills (b : OrderBook) (o : Order) : OrderBook × List Fill :=
  match o.side with
  | Side.Buy =>
    let res := matchOrder Side.Buy o.price o.quantity b.asks
    let b1 := applyFills { b with asks := res.2.1 } res.2.2
    if 0 < res.1 then
      ({ b1 with bids := addLimit bidBefore { o with quantity := res.1 } b1.bids }, res.2.2)
    else (b1, res.2.2)
  | Side.Sell =>
    let res := matchOrder Side.Sell o.price o.quantity b.bids
    let b1 := applyFills { b with bids := res.2.1 } res.2.2
    if 0 < res.1 then
      ({ b1 with asks := addLimit askBefore { o with quantity := res.1 } b1.asks }, res.2.2)
    else (b1, res.2.2)

/-- `OrderBook::submitOrder` (the fills are internal). -/
def submitOrder (b : OrderBook) (o : Order) : OrderBook :=
  (submitOrderWithFills b o).1

/-- A freshly constructed `OrderBook`: empty sides,
`lastTradePrice = 0.0`, `totalVolumeTraded = 0`, `cumulativeNotional = 0.0`. -/
def initBook : OrderBook :=
  { bids := [], asks := [], lastTradePrice := 0, totalVolumeTraded := 0, cumulativeNotional := 0 }

/-- The book state after a finite sequence of `submitOrder` calls on a fresh
book. -/
def runOrders (os : List Order) : OrderBook := os.foldl submitOrder initBook

/-- `OrderBook::getVWAP`:
`(totalVolumeTraded > 0) ? (cumulativeNotional / totalVolumeTraded) : 0.0`. -/
def getVWAP (b : OrderBook) : ℚ :=
  if 0 < b.totalVolumeTraded then b.cumulativeNotional / (b.totalVolumeTraded : ℚ) else 0

/-- `OrderBook::getLastTradePrice`. -/
def getLastTradePrice (b : OrderBook) : ℚ := b.lastTradePrice

/-- `OrderBook::getTotalVolume`. -/
def getTotalVolume (b : OrderBook) : ℕ := b.totalVolumeTraded

/-- `OrderBook::getCumulativeNotional`. -/
def getCumulativeNotional (b : OrderBook) : ℚ := b.cumulativeNotional

/-- src/AlphaSignalGenerator.h `enum class SignalType`. -/
inductive SignalType where
  | STRONG_BUY
  | BUY
  | HOLD
  | SELL
  | STRONG_SELL
deriving DecidableEq, Repr

/-- src/AlphaSignalGenerator.h `struct AlphaSignal`. -/
structure AlphaSignal where
  signal : SignalType
  strength : ℝ
  reason : String
  price : ℝ
  sma_short : ℝ
  sma_long : ℝ
  rsi : ℝ
  momentum : ℝ
  volatility : ℝ

/-- `SHORT_MA_PERIOD = 10`. -/
def SHORT_MA_PERIOD : ℕ := 10

/-- `LONG_MA_PERIOD = 30`. -/
def LONG_MA_PERIOD : ℕ := 30

/-- `RSI_PERIOD = 14`. -/
def RSI_PERIOD : ℕ := 14

/-- `MOMENTUM_PERIOD = 10`. -/
def MOMENTUM_PERIOD : ℕ := 10

/-- `VOLATILITY_PERIOD = 20`. -/
def VOLATILITY_PERIOD : ℕ := 20

/-- `MAX_HISTORY = 1000`. -/
def MAX_HISTORY : ℕ := 1000

/-- The three rolling deques of `AlphaSignalGenerator` (front of each list =
oldest sample, as for `std::deque`). -/
structure AlphaSignalGenerator where
  priceHistory : List ℝ
  volumeHistory : List ℝ
  vwapHistory : List ℝ

/-- The last `period` samples of a series: every indicator loop of the C++
runs `i` from `size - period` to `size - 1`. -/
def lastN (data : List ℝ) (period : ℕ) : List ℝ := data.drop (data.length - period)

/-- `AlphaSignalGenerator::calculateSMA`: arithmetic mean of the last
`period` samples, `0.0` when the series is shorter than `period`. -/
noncomputable def calculateSMA (data : List ℝ) (period : ℕ) : ℝ :=
  if data.length < period then 0
  else (lastN data period).sum / (period : ℝ)

/-- `AlphaSignalGenerator::calculateEMA` (computed by the source but not
consumed by the scoring rule). -/
noncomputable def calculateEMA (data : List ℝ) (period : ℕ) : ℝ :=
  if data.length < period then 0
  else
    let multiplier : ℝ := 2 / ((period : ℝ) + 1)
    (data.drop (data.length - period + 1)).foldl
      (fun ema x => (x - ema) * multiplier + ema) (data.getD (data.length - period) 0)

/-- `AlphaSignalGenerator::calculateRSI`: over the last `period` price
changes, mean gains over mean losses; `50.0` with fewer than `period + 1`
prices, `100.0` when the average loss is zero. -/
noncomputable def calculateRSI (prices : List ℝ) (period : ℕ) : ℝ :=
  if prices.length < period + 1 then 50
  else
    let window := lastN prices (period + 1)
    let changes := List.zipWith (fun a b => b - a) window window.tail
    let gains := changes.map (fun c => if 0 < c then c else 0)
    let losses := changes.map (fun c => if 0 < c then 0 else -c)
    let avgGain := gains.sum / (period : ℝ)
    let avgLoss := losses.sum / (period : ℝ)
    if avgLoss = 0 then 100
    else 100 - 100 / (1 + avgGain / avgLoss)

/-- `AlphaSignalGenerator::calculateMomentum`: percentage change between the
last price and the price `period` samples before it.  Division in ℝ yields 0
on a zero divisor where the C++ double division would produce NaN or an
infinity (reference price `past = 0`); every claim stated about this
function keeps the divisor nonzero, so model and program agree on all
covered inputs. -/
noncomputable def calculateMomentum (prices : List ℝ) (period : ℕ) : ℝ :=
  if prices.length < period + 1 then 0
  else
    let current := prices.getD (prices.length - 1) 0
    let past := prices.getD (prices.length - period - 1) 0
    ((current - past) / past) * 100

/-- `AlphaSignalGenerator::calculateVolatility`: population standard
deviation of the last `period` prices over their mean, times 100.  Division
in ℝ yields 0 on a zero divisor where the C++ double division would produce
NaN or an infinity (window mean 0); every claim stated about this function
keeps the mean nonzero, so model and program agree on all covered inputs. -/
noncomputable def calculateVolatility (prices : List ℝ) (period : ℕ) : ℝ :=
  if prices.length < period + 1 then 0
  else
    let mean := calculateSMA prices period
    let variance :=
      ((lastN prices period).map (fun x => (x - mean) * (x - mean))).sum / (period : ℝ)
    Real.sqrt variance / mean * 100

/-- `AlphaSignalGenerator::determineSignal`: the integer scoring rule
(MA crossover, RSI bands, momentum bands, volatility damper) mapped onto the
five signal values.  `_currentPrice` is a parameter of the C++ function that
it never reads. -/
noncomputable def determineSignal (sma_short sma_long rsi momentum volatility
    _currentPrice : ℝ) : SignalType :=
  let score0 : ℤ := 0
  let score1 := if sma_short > sma_long then score0 + 1
                else if sma_short < sma_long then score0 - 1 else score0
  let score2 := if rsi < 30 then score1 + 2
                else if rsi < 40 then score1 + 1
                else if rsi > 70 then score1 - 2
                else if rsi > 60 then score1 - 1 else score1
  let score3 := if momentum > 2 then score2 + 1
                else if momentum < -2 then score2 - 1 else score2
  let score := if volatility > 5 then (if score3 > 0 then score3 - 1 else score3 + 1)
               else score3
  if score ≥ 3 then SignalType.STRONG_BUY
  else if score ≥ 1 then SignalType.BUY
  else if score ≤ -3 then SignalType.STRONG_SELL
  else if score ≤ -1 then SignalType.SELL
  else SignalType.HOLD

/-- `AlphaSignalGenerator::calculateSignalStrength`: base 0.5, plus 0.3 for a
strong signal or 0.2 for a plain one, plus `min(|momentum|/5, 0.2)`, capped
at 1.0.  The C++ takes `rsi` as a parameter it never reads. -/
noncomputable def calculateSignalStrength (signal : SignalType) (_rsi momentum : ℝ) : ℝ :=
  let strength : ℝ := 0.5
  let strength :=
    if signal = SignalType.STRONG_BUY ∨ signal = SignalType.STRONG_SELL then strength + 0.3
    else if signal = SignalType.BUY ∨ signal = SignalType.SELL then strength + 0.2
    else strength
  let momentumStrength := min (|momentum| / 5) 0.2
  min (strength + momentumStrength) 1

/-- `AlphaSignalGenerator::getSignalReason`: token concatenation mirroring
the contributing conditions.  The C++ takes `signal` as a parameter it never
reads. -/
noncomputable def getSignalReason (_signal : SignalType)
    (sma_short sma_long rsi momentum : ℝ) : String :=
  let r1 := if sma_short > sma_long then "MA↑"
            else if sma_short < sma_long then "MA↓" else ""
  let r2 := if rsi < 30 then r1 ++ " RSI_OS"
            else if rsi > 70 then r1 ++ " RSI_OB"
            else if rsi < 50 then r1 ++ " RSI↓"
            else r1 ++ " RSI↑"
  if momentum > 2 then r2 ++ " Mom↑"
  else if momentum < -2 then r2 ++ " Mom↓"
  else r2

/-- `AlphaSignalGenerator::updatePrice`: push one sample onto each of the
three deques, then pop the front of all three if the price series now
exceeds `MAX_HISTORY`. -/
def updatePrice (g : AlphaSignalGenerator) (price volume vwap : ℝ) :
    AlphaSignalGenerator :=
  let ph := g.priceHistory ++ [price]
  let vh := g.volumeHistory ++ [volume]
  let wh := g.vwapHistory ++ [vwap]
  if MAX_HISTORY < ph.length then
    { priceHistory := ph.tail, volumeHistory := vh.tail, vwapHistory := wh.tail }
  else
    { priceHistory := ph, volumeHistory := vh, vwapHistory := wh }

/-- `AlphaSignalGenerator::generateSignal`.  The C++ declares a local
`AlphaSignal signal;` and assigns only `signal`, `strength` and `reason`
before the early insufficient-data return, so the six numeric fields of that
default-constructed value stay indeterminate on that path; the parameter
`init` models the indeterminate contents of the local. -/
noncomputable def generateSignal (g : AlphaSignalGenerator) (init : AlphaSignal) :
    AlphaSignal :=
  let s0 := { init with signal := SignalType.HOLD, strength := 0,
                        reason := "Insufficient data" }
  if g.priceHistory.length < LONG_MA_PERIOD + 1 then s0
  else
    let sma_short := calculateSMA g.priceHistory SHORT_MA_PERIOD
    let sma_long := calculateSMA g.priceHistory LONG_MA_PERIOD
    let rsi := calculateRSI g.priceHistory RSI_PERIOD
    let momentum := calculateMomentum g.priceHistory MOMENTUM_PERIOD
    let volatility := calculateVolatility g.priceHistory VOLATILITY_PERIOD
    let currentPrice := g.priceHistory.getD (g.priceHistory.length - 1) 0
    let sig := determineSignal sma_short sma_long rsi momentum volatility currentPrice
    { signal := sig,
      strength := calculateSignalStrength sig rsi momentum,
      reason := getSignalReason sig sma_short sma_long rsi momentum,
      price := currentPrice,
      sma_short := sma_short,
      sma_long := sma_long,
      rsi := rsi,
      momentum := momentum,
      volatility := volatility }

/-- `AlphaSignalGenerator::getHistorySize`. -/
def getHistorySize (g : AlphaSignalGenerator) : ℕ := g.priceHistory.length

/-- A freshly constructed `AlphaSignalGenerator`: all three deques empty. -/
def initGenerator : AlphaSignalGenerator :=
  { priceHistory := [], volumeHistory := [], vwapHistory := [] }

/-- The generator state after a finite sequence of `updatePrice` calls
(each sample is a `(price, volume, vwap)` triple). -/
def runUpdates (us : List (ℝ × ℝ × ℝ)) : AlphaSignalGenerator :=
  us.foldl (fun g u => updatePrice g u.1 u.2.1 u.2.2) initGenerator

/-- An all-zero snapshot value, one possible content of the
default-constructed local of `generateSignal`. -/
noncomputable def zeroSignal : AlphaSignal :=
  { signal := SignalType.HOLD, strength := 0, reason := "", price := 0, sma_short := 0,
    sma_long := 0, rsi := 0, momentum := 0, volatility := 0 }

/-- A snapshot value with nonzero numeric fields, another possible content
of the uninitialized default-constructed local of `generateSignal` (the C++
leaves those six doubles indeterminate). -/
noncomputable def junkSignal : AlphaSignal :=
  { signal := SignalType.HOLD, strength := 0, reason := "", price := 7, sma_short := 7,
    sma_long := 7, rsi := -1, momentum := 7, volatility := 7 }

/-- Thirty-one samples at the constant price 100. -/
noncomputable def constGen : AlphaSignalGenerator :=
  { priceHistory := List.replicate 31 100, volumeHistory := List.replicate 31 1000,
    vwapHistory := List.replicate 31 100 }

/-- Thirty-one negative prices: thirty at -100, then one at -90. -/
noncomputable def negGen : AlphaSignalGenerator :=
  { priceHistory := List.replicate 30 (-100) ++ [-90], volumeHistory := [],
    vwapHistory := [] }

/-- Two generator states with equal price series and different volume and
vwap series. -/
noncomputable def demoGenA : AlphaSignalGenerator :=
  { priceHistory := [100, 101], volumeHistory := [1, 2], vwapHistory := [3, 4] }

noncomputable def demoGenB : AlphaSignalGenerator :=
  { priceHistory := [100, 101], volumeHistory := [5, 6], vwapHistory := [7, 8] }

/-- Orders used by the concrete witness scenarios. -/
def demoRestBuy : Order := { id := 1, price := 100, quantity := 500, side := Side.Buy }

def demoRestSell : Order := { id := 2, price := 101, quantity := 500, side := Side.Sell }

def demoBidLevel : LimitLevel := { price := 100, totalVolume := 500, orders := [demoRestBuy] }

def demoAskLevel : LimitLevel := { price := 101, totalVolume := 500, orders := [demoRestSell] }

def demoBigBuy : Order := { id := 1, price := 100, quantity := 1000, side := Side.Buy }

def demoSmallSell : Order := { id := 2, price := 99, quantity := 300, side := Side.Sell }

def demoPartialLevel : LimitLevel :=
  { price := 100, totalVolume := 700,
    orders := [{ id := 1, price := 100, quantity := 700, side := Side.Buy }] }

def demoZeroOrder : Order := { id := 9, price := 100, quantity := 0, side := Side.Buy }

def sweepBuy1 : Order := { id := 1, price := 101, quantity := 500, side := Side.Buy }

def sweepBuy2 : Order := { id := 2, price := 100, quantity := 500, side := Side.Buy }

def sweepSell3 : Order := { id := 3, price := 99, quantity := 800, side := Side.Sell }

/-- Prices of the levels of one side, in map iteration order. -/
def levelPrices (l : List LimitLevel) : List ℚ := l.map LimitLevel.price

/-- Total remaining quantity of a queue of orders. -/
def sumQty (os : List Order) : ℕ := (os.map Order.quantity).sum

/-- Total quantity across a list of fills. -/
def fillQty (fs : List Fill) : ℕ := (fs.map Fill.qty).sum

/-- Well-formedness of one resting price level: `totalVolume` equals the sum
of the remaining quantities of the queued orders, and the queue is not
empty. -/
def LevelWF (lvl : LimitLevel) : Prop :=
  lvl.totalVolume = sumQty lvl.orders ∧ lvl.orders ≠ []

/-- Structural invariant of the book: each side is sorted in its map's
iteration order (bids strictly descending, asks strictly ascending), the
book is not crossed, and every resting level is well-formed. -/
def BookInv (b : OrderBook) : Prop :=
  (levelPrices b.bids).Pairwise (fun x y => y < x) ∧
  (levelPrices b.asks).Pairwise (fun x y => x < y) ∧
  (∀ bp ∈ levelPrices b.bids, ∀ ap ∈ levelPrices b.asks, bp < ap) ∧
  (∀ lvl ∈ b.bids, LevelWF lvl) ∧
  (∀ lvl ∈ b.asks, LevelWF lvl)

lemma matchLevelOrders_zero (lp : ℚ) (l : List Order) :
    matchLevelOrders 0 lp l = (0, l, []) := by
  cases l <;> simp [matchLevelOrders]

lemma matchLevelOrders_qty_eq_zero (lp : ℚ) :
    ∀ (l : List Order) (q : ℕ),
      (matchLevelOrders q lp l).2.1 ≠ [] → (matchLevelOrders q lp l).1 = 0
  | [], q, h => by simp [matchLevelOrders] at h
  | r :: rest, q, h => by
    by_cases hq : q = 0
    · simp [matchLevelOrders, hq]
    · by_cases hrq : r.quantity - min q r.quantity = 0
      · have ih := matchLevelOrders_qty_eq_zero lp rest (q - min q r.quantity)
        simp only [matchLevelOrders, if_neg hq, if_pos hrq] at h ⊢
        exact ih h
      · have hmin : min q r.quantity = q := by omega
        simp only [matchLevelOrders, if_neg hq, if_neg hrq, hmin,
          Nat.sub_self, matchLevelOrders_zero]
        split <;> rfl

lemma matchLevelOrders_conserve (lp : ℚ) :
    ∀ (l : List Order) (q : ℕ),
      (matchLevelOrders q lp l).1 + fillQty (matchLevelOrders q lp l).2.2 = q ∧
      sumQty (matchLevelOrders q lp l).2.1 + fillQty (matchLevelOrders q lp l).2.2 = sumQty l
  | [], q => by simp [matchLevelOrders, fillQty]
  | r :: rest, q => by
    by_cases hq : q = 0
    · simp [matchLevelOrders, hq, fillQty]
    · have ih := matchLevelOrders_conserve lp rest (q - min q r.quantity)
      by_cases hrq : r.quantity - min q r.quantity = 0
      · simp only [matchLevelOrders, if_neg hq, if_pos hrq, fillQty, List.map_cons,
          List.sum_cons, sumQty] at ih ⊢
        constructor <;> omega
      · simp only [matchLevelOrders, if_neg hq, if_neg hrq, fillQty, List.map_cons,
          List.sum_cons, sumQty] at ih ⊢
        constructor <;> omega

lemma matchOrder_zero (s : Side) (p : ℚ) (l : List LimitLevel) :
    matchOrder s p 0 l = (0, l, []) := by
  cases l <;> simp [matchOrder]

lemma matchOrder_prices_drop (s : Side) (p : ℚ) :
    ∀ (l : List LimitLevel) (q : ℕ),
      ∃ n, levelPrices (matchOrder s p q l).2.1 = (levelPrices l).drop n
  | [], q => ⟨0, by simp [matchOrder]⟩
  | lvl :: rest, q => by
    by_cases hq : q = 0
    · exact ⟨0, by simp [matchOrder, hq]⟩
    · by_cases hcm : canMatch s p lvl.price
      · by_cases hemp : (matchLevelOrders q lvl.price lvl.orders).2.1.isEmpty
        · obtain ⟨n, hn⟩ :=
            matchOrder_prices_drop s p rest (matchLevelOrders q lvl.price lvl.orders).1
          exact ⟨n + 1, by
            simpa only [matchOrder, if_neg hq, if_pos hcm, if_pos hemp, levelPrices,
              List.map_cons, List.drop_succ_cons] using hn⟩
        · have hne : (matchLevelOrders q lvl.price lvl.orders).2.1 ≠ [] := by
            simpa [List.isEmpty_iff] using hemp
          have h0 := matchLevelOrders_qty_eq_zero lvl.price lvl.orders q hne
          refine ⟨0, ?_⟩
          simp only [matchOrder, if_neg hq, if_pos hcm, if_neg hemp, h0, matchOrder_zero,
            levelPrices, List.map_cons, List.drop_zero]
      · exact ⟨0, by simp [matchOrder, hq, hcm]⟩

/-- If the aggressor still has quantity after `matchOrder` and the opposite
side is not exhausted, the loop stopped because the price-compatibility test
failed at the front (best) remaining level. -/
lemma matchOrder_stop (s : Side) (p : ℚ) :
    ∀ (l : List LimitLevel) (q : ℕ) (lvl₀ : LimitLevel) (t : List LimitLevel),
      (matchOrder s p q l).1 ≠ 0 →
      (matchOrder s p q l).2.1 = lvl₀ :: t →
      canMatch s p lvl₀.price = false
  | [], q, lvl₀, t, _, ht => by simp [matchOrder] at ht
  | lvl :: rest, q, lvl₀, t, hq', ht => by
    by_cases hq : q = 0
    · simp only [matchOrder, if_pos hq] at hq'
      exact absurd hq hq'
    · by_cases hcm : canMatch s p lvl.price
      · by_cases hemp : (matchLevelOrders q lvl.price lvl.orders).2.1.isEmpty
        · simp only [matchOrder, if_neg hq, if_pos hcm, if_pos hemp] at hq' ht
          exact matchOrder_stop s p rest _ lvl₀ t hq' ht
        · have hne : (matchLevelOrders q lvl.price lvl.orders).2.1 ≠ [] := by
            simpa [List.isEmpty_iff] using hemp
          have h0 := matchLevelOrders_qty_eq_zero lvl.price lvl.orders q hne
          simp only [matchOrder, if_neg hq, if_pos hcm, if_neg hemp, h0,
            matchOrder_zero] at hq'
          exact absurd rfl hq'
      · simp only [matchOrder, if_neg hq, if_neg hcm] at ht
        injection ht with h1 _
        exact Bool.eq_false_iff.mpr (h1 ▸ hcm)

/-- Matching preserves level well-formedness on the matched side. -/
lemma matchOrder_wf (s : Side) (p : ℚ) :
    ∀ (l : List LimitLevel) (q : ℕ),
      (∀ lvl ∈ l, LevelWF lvl) →
      ∀ lvl' ∈ (matchOrder s p q l).2.1, LevelWF lvl'
  | [], q, _, lvl', h' => by simp [matchOrder] at h'
  | lvl :: rest, q, hwf, lvl', h' => by
    by_cases hq : q = 0
    · simp only [matchOrder, if_pos hq] at h'
      exact hwf lvl' h'
    · by_cases hcm : canMatch s p lvl.price
      · by_cases hemp : (matchLevelOrders q lvl.price lvl.orders).2.1.isEmpty
        · simp only [matchOrder, if_neg hq, if_pos hcm, if_pos hemp] at h'
          exact matchOrder_wf s p rest _ (fun x hx => hwf x (List.mem_cons_of_mem _ hx)) lvl' h'
        · have hne : (matchLevelOrders q lvl.price lvl.orders).2.1 ≠ [] := by
            simpa [List.isEmpty_iff] using hemp
          have h0 := matchLevelOrders_qty_eq_zero lvl.price lvl.orders q hne
          have hcons := matchLevelOrders_conserve lvl.price lvl.orders q
          simp only [matchOrder, if_neg hq, if_pos hcm, if_neg hemp, h0,
            matchOrder_zero, List.mem_cons] at h'
          rcases h' with h' | h'
          · subst h'
            obtain ⟨h1, -⟩ := hwf lvl (List.mem_cons_self _ _)
            refine ⟨?_, hne⟩
            show lvl.totalVolume - (List.map Fill.qty (matchLevelOrders q lvl.price lvl.orders).2.2).sum
              = sumQty (matchLevelOrders q lvl.price lvl.orders).2.1
            have h2 := hcons.2
            simp only [fillQty] at h2
            omega
          · exact hwf lvl' (List.mem_cons_of_mem _ h')
      · simp only [matchOrder, if_neg hq, if_neg hcm] at h'
        exact hwf lvl' h'

/-- Every price present after `addLimit` is either the inserted order's price
or a price already present. -/
lemma addLimit_price_mem (before : ℚ → ℚ → Bool) (o : Order) :
    ∀ (l : List LimitLevel) (lvl' : LimitLevel), lvl' ∈ addLimit before o l →
      lvl'.price = o.price ∨ lvl'.price ∈ levelPrices l
  | [], lvl', h => by
    simp only [addLimit, List.mem_singleton] at h
    subst h
    exact Or.inl rfl
  | lvl :: rest, lvl', h => by
    simp only [levelPrices, List.map_cons, List.mem_cons]
    by_cases heq : o.price = lvl.price
    · simp only [addLimit, if_pos heq, List.mem_cons] at h
      rcases h with h | h
      · subst h; exact Or.inl rfl
      · exact Or.inr (Or.inr (List.mem_map_of_mem LimitLevel.price h))
    · by_cases hbef : before o.price lvl.price
      · simp only [addLimit, if_neg heq, if_pos hbef, List.mem_cons] at h
        rcases h with h | h | h
        · subst h; exact Or.inl rfl
        · subst h; exact Or.inr (Or.inl rfl)
        · exact Or.inr (Or.inr (List.mem_map_of_mem LimitLevel.price h))
      · simp only [addLimit, if_neg heq, if_neg hbef, List.mem_cons] at h
        rcases h with h | h
        · subst h; exact Or.inr (Or.inl rfl)
        · rcases addLimit_price_mem before o rest lvl' h with h' | h'
          · exact Or.inl h'
          · exact Or.inr (Or.inr (by simpa [levelPrices] using h'))

/-- `addLimit` preserves level well-formedness. -/
lemma addLimit_wf (before : ℚ → ℚ → Bool) (o : Order) :
    ∀ (l : List LimitLevel), (∀ lvl ∈ l, LevelWF lvl) →
      ∀ lvl' ∈ addLimit before o l, LevelWF lvl'
  | [], _, lvl', h' => by
    simp only [addLimit, List.mem_singleton] at h'
    subst h'
    exact ⟨by simp [sumQty], by simp⟩
  | lvl :: rest, hwf, lvl', h' => by
    by_cases heq : o.price = lvl.price
    · simp only [addLimit, if_pos heq, List.mem_cons] at h'
      rcases h' with h' | h'
      · subst h'
        obtain ⟨h1, -⟩ := hwf lvl (List.mem_cons_self _ _)
        refine ⟨?_, by simp⟩
        show lvl.totalVolume + o.quantity = sumQty (lvl.orders ++ [o])
        simp only [sumQty, List.map_append, List.sum_append, List.map_cons,
          List.map_nil, List.sum_cons, List.sum_nil] at h1 ⊢
        omega
      · exact hwf lvl' (List.mem_cons_of_mem _ h')
    · by_cases hbef : before o.price lvl.price
      · simp only [addLimit, if_neg heq, if_pos hbef, List.mem_cons] at h'
        rcases h' with h' | h' | h'
        · subst h'; exact ⟨by simp [sumQty], by simp⟩
        · subst h'; exact hwf lvl' (List.mem_cons_self _ _)
        · exact hwf lvl' (List.mem_cons_of_mem _ h')
      · simp only [addLimit, if_neg heq, if_neg hbef, List.mem_cons] at h'
        rcases h' with h' | h'
        · subst h'; exact hwf lvl' (List.mem_cons_self _ _)
        · exact addLimit_wf before o rest
            (fun x hx => hwf x (List.mem_cons_of_mem _ hx)) lvl' h'

/-- `addLimit` keeps a side sorted in its map's key order `r` (assuming
`before` decides `r`, `r` is transitive, and any two prices are equal or
`before`-comparable one way). -/
lemma addLimit_pairwise (r : ℚ → ℚ → Prop) (before : ℚ → ℚ → Bool)
    (hb : ∀ a b, before a b = true ↔ r a b)
    (htrans : ∀ a b c, r a b → r b c → r a c)
    (htot : ∀ a b : ℚ, a = b ∨ before a b = true ∨ before b a = true)
    (o : Order) :
    ∀ (l : List LimitLevel), (levelPrices l).Pairwise r →
      (levelPrices (addLimit before o l)).Pairwise r
  | [], _ => by simp [addLimit, levelPrices]
  | lvl :: rest, hp => by
    simp only [levelPrices, List.map_cons, List.pairwise_cons] at hp
    by_cases heq : o.price = lvl.price
    · simp only [addLimit, if_pos heq, levelPrices, List.map_cons, List.pairwise_cons]
      exact ⟨fun y hy => heq ▸ hp.1 y hy, hp.2⟩
    · by_cases hbef : before o.price lvl.price
      · simp only [addLimit, if_neg heq, if_pos hbef, levelPrices, List.map_cons,
          List.pairwise_cons]
        refine ⟨?_, fun y hy => hp.1 y hy, hp.2⟩
        intro y hy
        rcases List.mem_cons.1 hy with h | h
        · exact h ▸ (hb _ _).1 hbef
        · exact htrans _ _ _ ((hb _ _).1 hbef) (hp.1 y h)
      · simp only [addLimit, if_neg heq, if_neg hbef, levelPrices, List.map_cons,
          List.pairwise_cons]
        refine ⟨?_, ?_⟩
        · intro y hy
          rcases List.mem_map.1 hy with ⟨lvl', hlvl', rfl⟩
          rcases addLimit_price_mem before o rest lvl' hlvl' with h' | h'
          · rw [h']
            rcases htot o.price lvl.price with h | h | h
            · exact absurd h heq
            · exact absurd h hbef
            · exact (hb _ _).1 h
          · exact hp.1 _ h'
        · exact addLimit_pairwise r before hb htrans htot o rest hp.2

/-- A buy aggressor that still has quantity left rests strictly below every
price remaining on the ask side. -/
lemma matchOrder_rest_bound_buy (p : ℚ) (q : ℕ) (asks : List LimitLevel)
    (hsorted : (levelPrices asks).Pairwise (fun x y => x < y))
    (h : (matchOrder Side.Buy p q asks).1 ≠ 0) :
    ∀ ap ∈ levelPrices (matchOrder Side.Buy p q asks).2.1, p < ap := by
  obtain ⟨n, hn⟩ := matchOrder_prices_drop Side.Buy p asks q
  have hsorted' : (levelPrices (matchOrder Side.Buy p q asks).2.1).Pairwise
      (fun x y => x < y) := by
    rw [hn]; exact hsorted.sublist (List.drop_sublist n _)
  intro ap hap
  rcases hl : (matchOrder Side.Buy p q asks).2.1 with _ | ⟨lvl₀, t⟩
  · rw [hl] at hap; simp [levelPrices] at hap
  · have hstop := matchOrder_stop Side.Buy p asks q lvl₀ t h hl
    have hp0 : p < lvl₀.price := by
      simp only [canMatch, ge_iff_le, decide_eq_false_iff_not, not_le] at hstop
      exact hstop
    rw [hl] at hap hsorted'
    simp only [levelPrices, List.map_cons, List.mem_cons] at hap
    rcases hap with rfl | hap
    · exact hp0
    · have := (List.pairwise_cons.1 hsorted').1 ap (by simpa [levelPrices] using hap)
      exact lt_trans hp0 this

/-- A sell aggressor that still has quantity left rests strictly above every
price remaining on the bid side. -/
lemma matchOrder_rest_bound_sell (p : ℚ) (q : ℕ) (bids : List LimitLevel)
    (hsorted : (levelPrices bids).Pairwise (fun x y => y < x))
    (h : (matchOrder Side.Sell p q bids).1 ≠ 0) :
    ∀ bp ∈ levelPrices (matchOrder Side.Sell p q bids).2.1, bp < p := by
  obtain ⟨n, hn⟩ := matchOrder_prices_drop Side.Sell p bids q
  have hsorted' : (levelPrices (matchOrder Side.Sell p q bids).2.1).Pairwise
      (fun x y => y < x) := by
    rw [hn]; exact hsorted.sublist (List.drop_sublist n _)
  intro bp hbp
  rcases hl : (matchOrder Side.Sell p q bids).2.1 with _ | ⟨lvl₀, t⟩
  · rw [hl] at hbp; simp [levelPrices] at hbp
  · have hstop := matchOrder_stop Side.Sell p bids q lvl₀ t h hl
    have hp0 : lvl₀.price < p := by
      simp only [canMatch, decide_eq_false_iff_not, not_le] at hstop
      exact hstop
    rw [hl] at hbp hsorted'
    simp only [levelPrices, List.map_cons, List.mem_cons] at hbp
    rcases hbp with rfl | hbp
    · exact hp0
    · have := (List.pairwise_cons.1 hsorted').1 bp (by simpa [levelPrices] using hbp)
      exact lt_trans this hp0

/-- The statistics fold never touches the two sides of the book. -/
lemma applyFills_sides (fs : List Fill) :
    ∀ b : OrderBook, (applyFills b fs).bids = b.bids ∧ (applyFills b fs).asks = b.asks := by
  induction fs with
  | nil => intro b; exact ⟨rfl, rfl⟩
  | cons f fs ih =>
    intro b
    have := ih (applyFill b f)
    simpa [applyFills, applyFill] using this

/-- `submitOrder` preserves the structural invariant of the book. -/
lemma submitOrder_inv (b : OrderBook) (o : Order) (h : BookInv b) :
    BookInv (submitOrder b o) := by
  obtain ⟨hbidSort, haskSort, hcross, hbidWF, haskWF⟩ := h
  cases hside : o.side with
  | Buy =>
    simp only [submitOrder, submitOrderWithFills, hside]
    set res := matchOrder Side.Buy o.price o.quantity b.asks with hres
    obtain ⟨hb1bids, hb1asks⟩ := applyFills_sides res.2.2 { b with asks := res.2.1 }
    obtain ⟨n, hdrop⟩ := matchOrder_prices_drop Side.Buy o.price b.asks o.quantity
    have haskSort' : (levelPrices res.2.1).Pairwise (fun x y => x < y) := by
      rw [← hres] at hdrop
      rw [hdrop]; exact haskSort.sublist (List.drop_sublist n _)
    have haskMem : ∀ ap ∈ levelPrices res.2.1, ap ∈ levelPrices b.asks := by
      rw [← hres] at hdrop
      intro ap hap
      rw [hdrop] at hap
      exact (List.drop_sublist n _).subset hap
    have haskWF' : ∀ lvl ∈ res.2.1, LevelWF lvl :=
      matchOrder_wf Side.Buy o.price b.asks o.quantity haskWF
    by_cases hq : 0 < res.1
    · simp only [if_pos hq]
      refine ⟨?_, ?_, ?_, ?_, ?_⟩
      · simp only [hb1bids]
        exact addLimit_pairwise (fun x y => y < x) bidBefore
          (fun a b => by simp only [bidBefore, decide_eq_true_eq])
          (fun a b c hab hbc => lt_trans hbc hab)
          (fun a b => by rcases lt_trichotomy a b with h | h | h
                         · exact Or.inr (Or.inr (by simpa only [bidBefore,
                             decide_eq_true_eq] using h))
                         · exact Or.inl h
                         · exact Or.inr (Or.inl (by simpa only [bidBefore,
                             decide_eq_true_eq] using h)))
          _ _ hbidSort
      · simpa only [hb1asks] using haskSort'
      · simp only [hb1bids, hb1asks]
        intro bp hbp ap hap
        rcases List.mem_map.1 hbp with ⟨lvl', hlvl', rfl⟩
        rcases addLimit_price_mem bidBefore _ b.bids lvl' hlvl' with h' | h'
        · rw [h']
          exact matchOrder_rest_bound_buy o.price o.quantity b.asks haskSort
            (Nat.pos_iff_ne_zero.mp hq) ap hap
        · exact hcross _ h' ap (haskMem ap hap)
      · simp only [hb1bids]
        exact addLimit_wf bidBefore _ b.bids hbidWF
      · simpa only [hb1asks] using haskWF'
    · simp only [if_neg hq]
      refine ⟨?_, ?_, ?_, ?_, ?_⟩
      · simpa only [hb1bids] using hbidSort
      · simpa only [hb1asks] using haskSort'
      · simp only [hb1bids, hb1asks]
        exact fun bp hbp ap hap => hcross bp hbp ap (haskMem ap hap)
      · simpa only [hb1bids] using hbidWF
      · simpa only [hb1asks] using haskWF'
  | Sell =>
    simp only [submitOrder, submitOrderWithFills, hside]
    set res := matchOrder Side.Sell o.price o.quantity b.bids with hres
    obtain ⟨hb1bids, hb1asks⟩ := applyFills_sides res.2.2 { b with bids := res.2.1 }
    obtain ⟨n, hdrop⟩ := matchOrder_prices_drop Side.Sell o.price b.bids o.quantity
    have hbidSort' : (levelPrices res.2.1).Pairwise (fun x y => y < x) := by
      rw [← hres] at hdrop
      rw [hdrop]; exact hbidSort.sublist (List.drop_sublist n _)
    have hbidMem : ∀ bp ∈ levelPrices res.2.1, bp ∈ levelPrices b.bids := by
      rw [← hres] at hdrop
      intro bp hbp
      rw [hdrop] at hbp
      exact (List.drop_sublist n _).subset hbp
    have hbidWF' : ∀ lvl ∈ res.2.1, LevelWF lvl :=
      matchOrder_wf Side.Sell o.price b.bids o.quantity hbidWF
    by_cases hq : 0 < res.1
    · simp only [if_pos hq]
      refine ⟨?_, ?_, ?_, ?_, ?_⟩
      · simpa only [hb1bids] using hbidSort'
      · simp only [hb1asks]
        exact addLimit_pairwise (fun x y => x < y) askBefore
          (fun a b => by simp only [askBefore, decide_eq_true_eq])
          (fun a b c hab hbc => lt_trans hab hbc)
          (fun a b => by rcases lt_trichotomy a b with h | h | h
                         · exact Or.inr (Or.inl (by simpa only [askBefore,
                             decide_eq_true_eq] using h))
                         · exact Or.inl h
                         · exact Or.inr (Or.inr (by simpa only [askBefore,
                             decide_eq_true_eq] using h)))
          _ _ haskSort
      · simp only [hb1bids, hb1asks]
        intro bp hbp ap hap
        rcases List.mem_map.1 hap with ⟨lvl', hlvl', rfl⟩
        rcases addLimit_price_mem askBefore _ b.asks lvl' hlvl' with h' | h'
        · rw [h']
          exact matchOrder_rest_bound_sell o.price o.quantity b.bids hbidSort
            (Nat.pos_iff_ne_zero.mp hq) bp hbp
        · exact hcross bp (hbidMem bp hbp) _ h'
      · simpa only [hb1bids] using hbidWF'
      · simp only [hb1asks]
        exact addLimit_wf askBefore _ b.asks haskWF
    · simp only [if_neg hq]
      refine ⟨?_, ?_, ?_, ?_, ?_⟩
      · simpa only [hb1bids] using hbidSort'
      · simpa only [hb1asks] using haskSort
      · simp only [hb1bids, hb1asks]
        exact fun bp hbp ap hap => hcross bp (hbidMem bp hbp) ap hap
      · simpa only [hb1bids] using hbidWF'
      · simpa only [hb1asks] using haskWF

/-- Every reachable book state satisfies the structural invariant. -/
lemma runOrders_inv (os : List Order) : BookInv (runOrders os) := by
  have hinit : BookInv initBook := by
    refine ⟨?_, ?_, ?_, ?_, ?_⟩ <;> simp [initBook, levelPrices]
  have : ∀ (l : List Order) (b : OrderBook), BookInv b → BookInv (l.foldl submitOrder b) := by
    intro l
    induction l with
    | nil => exact fun b hb => hb
    | cons o rest ih => exact fun b hb => ih _ (submitOrder_inv b o hb)
  exact this os initBook hinit

/-- C1: after every finite sequence of `submitOrder` calls the book is never
crossed: every resting bid-side level price is strictly below every resting
ask-side level price. -/
theorem claim_C1_never_crossed (os : List Order) :
    ∀ bl ∈ (runOrders os).bids, ∀ al ∈ (runOrders os).asks, bl.price < al.price := by
  obtain ⟨-, -, hcross, -, -⟩ := runOrders_inv os
  intro bl hbl al hal
  exact hcross bl.price (List.mem_map_of_mem _ hbl) al.price (List.mem_map_of_mem _ hal)

theorem claim_C1_witness :
    demoBidLevel ∈ (runOrders [demoRestBuy, demoRestSell]).bids ∧
    demoAskLevel ∈ (runOrders [demoRestBuy, demoRestSell]).asks ∧
    demoBidLevel.price < demoAskLevel.price :=
  ⟨by decide, by decide,
   claim_C1_never_crossed [demoRestBuy, demoRestSell] demoBidLevel (by decide)
     demoAskLevel (by decide)⟩

/-- C2: from an empty book, Buy(1, 101.0, 500), Buy(2, 100.0, 500), then
Sell(3, 99.0, 800) produces exactly the fills 500 at 101.0 and 300 at 100.0
(each at the resting level's price), and leaves
`last_trade_price = 100.0`, `total_volume_traded = 800`, and
`vwap = 100.625`. -/
theorem claim_C2_multi_level_sweep :
    (submitOrderWithFills (runOrders [sweepBuy1, sweepBuy2]) sweepSell3).2 =
      [{ price := 101, qty := 500 }, { price := 100, qty := 300 }] ∧
    getLastTradePrice (submitOrderWithFills (runOrders [sweepBuy1, sweepBuy2]) sweepSell3).1
      = 100 ∧
    getTotalVolume (submitOrderWithFills (runOrders [sweepBuy1, sweepBuy2]) sweepSell3).1
      = 800 ∧
    getVWAP (submitOrderWithFills (runOrders [sweepBuy1, sweepBuy2]) sweepSell3).1
      = 100.625 := by
  have h : submitOrderWithFills (runOrders [sweepBuy1, sweepBuy2]) sweepSell3 =
      ({ bids := [{ price := 100, totalVolume := 200,
                    orders := [{ id := 2, price := 100, quantity := 200, side := Side.Buy }] }],
         asks := [], lastTradePrice := 100, totalVolumeTraded := 800,
         cumulativeNotional := 80500 },
       [{ price := 101, qty := 500 }, { price := 100, qty := 300 }]) := by
    norm_num [runOrders, submitOrder, submitOrderWithFills, matchOrder, matchLevelOrders,
      addLimit, applyFills, applyFill, initBook, sweepBuy1, sweepBuy2, sweepSell3, canMatch,
      bidBefore, askBefore]
  rw [h]
  refine ⟨rfl, rfl, rfl, ?_⟩
  norm_num [getVWAP]

/-- C3: in every reachable book state, every resting level's `totalVolume`
equals the sum of the remaining quantities of its queued orders, and no level
with an empty queue remains on either side. -/
theorem claim_C3_level_volume_invariant (os : List Order) :
    ∀ lvl, lvl ∈ (runOrders os).bids ∨ lvl ∈ (runOrders os).asks →
      lvl.totalVolume = (lvl.orders.map Order.quantity).sum ∧ lvl.orders ≠ [] := by
  obtain ⟨-, -, -, hbw, haw⟩ := runOrders_inv os
  intro lvl h
  rcases h with h | h
  · exact hbw lvl h
  · exact haw lvl h

theorem claim_C3_witness :
    demoPartialLevel ∈ (runOrders [demoBigBuy, demoSmallSell]).bids ∧
    (demoPartialLevel.totalVolume = (demoPartialLevel.orders.map Order.quantity).sum ∧
      demoPartialLevel.orders ≠ []) :=
  ⟨by decide,
   claim_C3_level_volume_invariant [demoBigBuy, demoSmallSell] demoPartialLevel
     (Or.inl (by decide))⟩

/-- C6: in every reachable book state, `getVWAP` returns
`cumulativeNotional / totalVolumeTraded` when `totalVolumeTraded > 0` and `0`
when `totalVolumeTraded = 0`. -/
theorem claim_C6_vwap (os : List Order) :
    (0 < (runOrders os).totalVolumeTraded →
      getVWAP (runOrders os) =
        (runOrders os).cumulativeNotional / ((runOrders os).totalVolumeTraded : ℚ)) ∧
    ((runOrders os).totalVolumeTraded = 0 → getVWAP (runOrders os) = 0) := by
  constructor
  · intro h; simp [getVWAP, h]
  · intro h; simp [getVWAP, h]

theorem claim_C6_witness :
    (0 < (runOrders [demoBigBuy, demoSmallSell]).totalVolumeTraded ∧
      getVWAP (runOrders [demoBigBuy, demoSmallSell]) =
        (runOrders [demoBigBuy, demoSmallSell]).cumulativeNotional /
          ((runOrders [demoBigBuy, demoSmallSell]).totalVolumeTraded : ℚ)) ∧
    ((runOrders []).totalVolumeTraded = 0 ∧ getVWAP (runOrders []) = 0) :=
  ⟨⟨by decide, (claim_C6_vwap [demoBigBuy, demoSmallSell]).1 (by decide)⟩,
   ⟨by decide, (claim_C6_vwap []).2 (by decide)⟩⟩

/-- C7: submitting an order of quantity 0 leaves the whole book state
unchanged, produces no fill, and rests no order. -/
theorem claim_C7_zero_quantity_noop (b : OrderBook) (o : Order) (h : o.quantity = 0) :
    submitOrderWithFills b o = (b, []) := by
  cases hside : o.side with
  | Buy => simp [submitOrderWithFills, hside, h, matchOrder_zero, applyFills]
  | Sell => simp [submitOrderWithFills, hside, h, matchOrder_zero, applyFills]

theorem claim_C7_witness :
    demoZeroOrder.quantity = 0 ∧
    submitOrderWithFills initBook demoZeroOrder = (initBook, []) :=
  ⟨rfl, claim_C7_zero_quantity_noop initBook demoZeroOrder rfl⟩

lemma updatePrice_priceHistory (g : AlphaSignalGenerator) (p v w : ℝ) :
    (updatePrice g p v w).priceHistory =
      if MAX_HISTORY < g.priceHistory.length + 1 then (g.priceHistory ++ [p]).tail
      else g.priceHistory ++ [p] := by
  simp only [updatePrice, List.length_append, List.length_singleton]
  split <;> rfl

lemma updatePrice_volumeHistory (g : AlphaSignalGenerator) (p v w : ℝ) :
    (updatePrice g p v w).volumeHistory =
      if MAX_HISTORY < g.priceHistory.length + 1 then (g.volumeHistory ++ [v]).tail
      else g.volumeHistory ++ [v] := by
  simp only [updatePrice, List.length_append, List.length_singleton]
  split <;> rfl

lemma updatePrice_vwapHistory (g : AlphaSignalGenerator) (p v w : ℝ) :
    (updatePrice g p v w).vwapHistory =
      if MAX_HISTORY < g.priceHistory.length + 1 then (g.vwapHistory ++ [w]).tail
      else g.vwapHistory ++ [w] := by
  simp only [updatePrice, List.length_append, List.length_singleton]
  split <;> rfl

lemma foldl_updatePrice_lengths :
    ∀ (us : List (ℝ × ℝ × ℝ)) (g : AlphaSignalGenerator),
      g.priceHistory.length ≤ MAX_HISTORY →
      g.volumeHistory.length = g.priceHistory.length →
      g.vwapHistory.length = g.priceHistory.length →
      (us.foldl (fun g u => updatePrice g u.1 u.2.1 u.2.2) g).priceHistory.length
          = min (g.priceHistory.length + us.length) MAX_HISTORY ∧
      (us.foldl (fun g u => updatePrice g u.1 u.2.1 u.2.2) g).volumeHistory.length
          = (us.foldl (fun g u => updatePrice g u.1 u.2.1 u.2.2) g).priceHistory.length ∧
      (us.foldl (fun g u => updatePrice g u.1 u.2.1 u.2.2) g).vwapHistory.length
          = (us.foldl (fun g u => updatePrice g u.1 u.2.1 u.2.2) g).priceHistory.length
  | [], g, h1, h2, h3 => by
    simp only [List.foldl_nil, List.length_nil, Nat.add_zero]
    exact ⟨by omega, h2, h3⟩
  | u :: us, g, h1, h2, h3 => by
    have hp := updatePrice_priceHistory g u.1 u.2.1 u.2.2
    have hv := updatePrice_volumeHistory g u.1 u.2.1 u.2.2
    have hw := updatePrice_vwapHistory g u.1 u.2.1 u.2.2
    have hl1 : (updatePrice g u.1 u.2.1 u.2.2).priceHistory.length
        = min (g.priceHistory.length + 1) MAX_HISTORY := by
      rw [hp]; split <;> simp <;> omega
    have hl2 : (updatePrice g u.1 u.2.1 u.2.2).volumeHistory.length
        = (updatePrice g u.1 u.2.1 u.2.2).priceHistory.length := by
      rw [hp, hv]; split <;> simp <;> omega
    have hl3 : (updatePrice g u.1 u.2.1 u.2.2).vwapHistory.length
        = (updatePrice g u.1 u.2.1 u.2.2).priceHistory.length := by
      rw [hp, hw]; split <;> simp <;> omega
    have ih := foldl_updatePrice_lengths us (updatePrice g u.1 u.2.1 u.2.2)
      (by rw [hl1]; omega) hl2 hl3
    simp only [List.foldl_cons]
    refine ⟨?_, ih.2.1, ih.2.2⟩
    rw [ih.1, hl1, List.length_cons]
    omega

lemma runUpdates_lengths (us : List (ℝ × ℝ × ℝ)) :
    (runUpdates us).priceHistory.length = min us.length MAX_HISTORY ∧
    (runUpdates us).volumeHistory.length = (runUpdates us).priceHistory.length ∧
    (runUpdates us).vwapHistory.length = (runUpdates us).priceHistory.length := by
  have h := foldl_updatePrice_lengths us initGenerator
    (by simp [initGenerator]) (by simp [initGenerator]) (by simp [initGenerator])
  simpa [runUpdates, initGenerator] using h

/-- C8: after any finite sequence of `updatePrice` calls, the three series
have identical lengths, that common length is `min count MAX_HISTORY` (hence
never exceeds the cap), and each further `updatePrice` appends one sample to
each series, evicting the oldest sample of each exactly when the price
series would exceed the cap. -/
theorem claim_C8_history_lengths (us : List (ℝ × ℝ × ℝ)) :
    (runUpdates us).priceHistory.length = (runUpdates us).volumeHistory.length ∧
    (runUpdates us).priceHistory.length = (runUpdates us).vwapHistory.length ∧
    (runUpdates us).priceHistory.length ≤ MAX_HISTORY ∧
    (runUpdates us).priceHistory.length = min us.length MAX_HISTORY ∧
    ∀ p v w : ℝ,
      (updatePrice (runUpdates us) p v w).priceHistory =
        (if MAX_HISTORY < (runUpdates us).priceHistory.length + 1
         then ((runUpdates us).priceHistory ++ [p]).tail
         else (runUpdates us).priceHistory ++ [p]) ∧
      (updatePrice (runUpdates us) p v w).volumeHistory =
        (if MAX_HISTORY < (runUpdates us).priceHistory.length + 1
         then ((runUpdates us).volumeHistory ++ [v]).tail
         else (runUpdates us).volumeHistory ++ [v]) ∧
      (updatePrice (runUpdates us) p v w).vwapHistory =
        (if MAX_HISTORY < (runUpdates us).priceHistory.length + 1
         then ((runUpdates us).vwapHistory ++ [w]).tail
         else (runUpdates us).vwapHistory ++ [w]) := by
  obtain ⟨h1, h2, h3⟩ := runUpdates_lengths us
  refine ⟨h2.symm, h3.symm, by rw [h1]; exact Nat.min_le_right _ _, h1, ?_⟩
  intro p v w
  exact ⟨updatePrice_priceHistory _ p v w, updatePrice_volumeHistory _ p v w,
    updatePrice_vwapHistory _ p v w⟩

lemma foldl_updatePrice_priceHistory :
    ∀ (us1 us2 : List (ℝ × ℝ × ℝ)) (g1 g2 : AlphaSignalGenerator),
      us1.map Prod.fst = us2.map Prod.fst →
      g1.priceHistory = g2.priceHistory →
      (us1.foldl (fun g u => updatePrice g u.1 u.2.1 u.2.2) g1).priceHistory
        = (us2.foldl (fun g u => updatePrice g u.1 u.2.1 u.2.2) g2).priceHistory
  | [], [], g1, g2, _, hg => by simpa using hg
  | [], u :: us2, g1, g2, h, _ => by simp at h
  | u :: us1, [], g1, g2, h, _ => by simp at h
  | u1 :: us1, u2 :: us2, g1, g2, h, hg => by
    simp only [List.map_cons, List.cons.injEq] at h
    simp only [List.foldl_cons]
    exact foldl_updatePrice_priceHistory us1 us2 _ _ h.2 (by
      rw [updatePrice_priceHistory, updatePrice_priceHistory, hg, h.1])

/-- C10: the generated snapshot depends only on the price series: two engine
states with identical `priceHistory` produce identical `generateSignal`
results, and the volume and vwap arguments of `updatePrice` never influence
the result. -/
theorem claim_C10_price_only :
    (∀ (g1 g2 : AlphaSignalGenerator) (init : AlphaSignal),
       g1.priceHistory = g2.priceHistory →
       generateSignal g1 init = generateSignal g2 init) ∧
    (∀ (us1 us2 : List (ℝ × ℝ × ℝ)) (init : AlphaSignal),
       us1.map Prod.fst = us2.map Prod.fst →
       generateSignal (runUpdates us1) init = generateSignal (runUpdates us2) init) := by
  have hgen : ∀ (g1 g2 : AlphaSignalGenerator) (init : AlphaSignal),
      g1.priceHistory = g2.priceHistory →
      generateSignal g1 init = generateSignal g2 init := by
    intro g1 g2 init h
    simp only [generateSignal, h]
  refine ⟨hgen, fun us1 us2 init h => hgen _ _ init ?_⟩
  exact foldl_updatePrice_priceHistory us1 us2 initGenerator initGenerator h rfl

theorem claim_C10_witness :
    demoGenA.priceHistory = demoGenB.priceHistory ∧
    generateSignal demoGenA zeroSignal = generateSignal demoGenB zeroSignal ∧
    [((100 : ℝ), (1 : ℝ), (3 : ℝ))].map Prod.fst
      = [((100 : ℝ), (5 : ℝ), (7 : ℝ))].map Prod.fst ∧
    generateSignal (runUpdates [((100 : ℝ), (1 : ℝ), (3 : ℝ))]) zeroSignal
      = generateSignal (runUpdates [((100 : ℝ), (5 : ℝ), (7 : ℝ))]) zeroSignal :=
  ⟨rfl, claim_C10_price_only.1 demoGenA demoGenB zeroSignal rfl,
   by simp, claim_C10_price_only.2 _ _ zeroSignal (by simp)⟩

/-- C5: with fewer than 31 samples `generateSignal` does return signal HOLD,
strength 0 and reason "Insufficient data", but the six numeric fields of the
returned snapshot are the indeterminate contents of the default-constructed
C++ local (never assigned on this path), not 0: with the empty history and a
local whose `price` happens to hold 7 and `rsi` holds -1, those values are
returned unchanged. -/
theorem claim_C5_insufficient_data_fields :
    generateSignal initGenerator junkSignal =
      { junkSignal with signal := SignalType.HOLD, strength := 0,
                        reason := "Insufficient data" } ∧
    (generateSignal initGenerator junkSignal).price = 7 ∧
    (generateSignal initGenerator junkSignal).price ≠ 0 ∧
    (generateSignal initGenerator junkSignal).rsi = -1 ∧
    (generateSignal initGenerator junkSignal).rsi ≠ 0 := by
  have h : generateSignal initGenerator junkSignal =
      { junkSignal with signal := SignalType.HOLD, strength := 0,
                        reason := "Insufficient data" } := by
    norm_num [generateSignal, initGenerator, LONG_MA_PERIOD]
  refine ⟨h, ?_, ?_, ?_, ?_⟩ <;> rw [h] <;> norm_num [junkSignal]

lemma lastN_replicate (n p : ℕ) (c : ℝ) (h : p ≤ n) :
    lastN (List.replicate n c) p = List.replicate p c := by
  simp [lastN, List.drop_replicate, Nat.sub_sub_self h]

lemma getD_replicate (n i : ℕ) (c d : ℝ) (h : i < n) :
    (List.replicate n c).getD i d = c := by
  simp [List.getD_eq_getElem?_getD, List.getElem?_replicate_of_lt h]

lemma calculateSMA_replicate (n p : ℕ) (c : ℝ) (hp : 0 < p) (hpn : p ≤ n) :
    calculateSMA (List.replicate n c) p = c := by
  simp only [calculateSMA, List.length_replicate]
  rw [if_neg (by omega), lastN_replicate n p c hpn, List.sum_replicate, nsmul_eq_mul]
  have hp' : (p : ℝ) ≠ 0 := Nat.cast_ne_zero.mpr (by omega)
  exact mul_div_cancel_left₀ c hp'

lemma calculateRSI_replicate (n : ℕ) (c : ℝ) (hn : RSI_PERIOD + 1 ≤ n) :
    calculateRSI (List.replicate n c) RSI_PERIOD = 100 := by
  simp only [calculateRSI, List.length_replicate]
  rw [if_neg (by omega), lastN_replicate n (RSI_PERIOD + 1) c hn]
  simp only [List.tail_replicate, List.zipWith_replicate, List.map_replicate, sub_self]
  norm_num [List.sum_replicate]

lemma calculateMomentum_replicate (n : ℕ) (c : ℝ) (hn : MOMENTUM_PERIOD + 1 ≤ n) :
    calculateMomentum (List.replicate n c) MOMENTUM_PERIOD = 0 := by
  simp only [calculateMomentum, List.length_replicate]
  rw [if_neg (by omega), getD_replicate n (n - 1) c 0 (by omega),
      getD_replicate n (n - MOMENTUM_PERIOD - 1) c 0 (by omega)]
  simp

lemma calculateVolatility_replicate (n : ℕ) (c : ℝ) (hn : VOLATILITY_PERIOD + 1 ≤ n) :
    calculateVolatility (List.replicate n c) VOLATILITY_PERIOD = 0 := by
  simp only [calculateVolatility, List.length_replicate]
  rw [if_neg (by omega),
      calculateSMA_replicate n VOLATILITY_PERIOD c (by simp [VOLATILITY_PERIOD]) (by omega),
      lastN_replicate n VOLATILITY_PERIOD c (by omega)]
  simp [List.map_replicate, List.sum_replicate]

lemma determineSignal_const (c : ℝ) :
    determineSignal c c 100 0 0 c = SignalType.SELL := by
  norm_num [determineSignal]

lemma strength_sell_const : calculateSignalStrength SignalType.SELL 100 0 = 0.7 := by
  simp only [calculateSignalStrength]
  rw [if_neg (by simp), if_pos (by simp)]
  norm_num [min_def, abs_zero]

lemma reason_sell_const (c : ℝ) :
    getSignalReason SignalType.SELL c c 100 0 = " RSI_OB" := by
  simp only [getSignalReason]
  norm_num

/-- `generateSignal` fully characterized on a constant nonzero price series
of at least 31 samples: RSI hits its zero-average-loss guard value 100 and
the score is -2, giving SELL.  The hypothesis `c ≠ 0` keeps the momentum and
volatility divisions (both by `c`) away from the division-by-zero region,
where the C++ would produce NaN while ℝ division in Lean yields 0; the
equation is stated only where model and program agree. -/
lemma generateSignal_replicate (n : ℕ) (c : ℝ) (vh wh : List ℝ) (init : AlphaSignal)
    (hn : 31 ≤ n) (_hc0 : c ≠ 0) :
    generateSignal ⟨List.replicate n c, vh, wh⟩ init =
      { signal := SignalType.SELL, strength := 0.7, reason := " RSI_OB", price := c,
        sma_short := c, sma_long := c, rsi := 100, momentum := 0, volatility := 0 } := by
  simp only [generateSignal, List.length_replicate]
  rw [if_neg (by simp only [LONG_MA_PERIOD]; omega),
      calculateSMA_replicate n SHORT_MA_PERIOD c (by simp [SHORT_MA_PERIOD])
        (by simp only [SHORT_MA_PERIOD]; omega),
      calculateSMA_replicate n LONG_MA_PERIOD c (by simp [LONG_MA_PERIOD])
        (by simp only [LONG_MA_PERIOD]; omega),
      calculateRSI_replicate n c (by simp only [RSI_PERIOD]; omega),
      calculateMomentum_replicate n c (by simp only [MOMENTUM_PERIOD]; omega),
      calculateVolatility_replicate n c (by simp only [VOLATILITY_PERIOD]; omega),
      getD_replicate n (n - 1) c 0 (by omega),
      determineSignal_const c, strength_sell_const, reason_sell_const c]

/-- C4 is wrong on the code: with 31 equal prices the RSI computation takes
the `avgLoss == 0` guard and returns 100 (not the neutral default 50), and
the resulting signal is SELL (score -2), not HOLD. -/
theorem claim_C4_counterexample :
    (generateSignal constGen zeroSignal).rsi = 100 ∧
    (generateSignal constGen zeroSignal).signal = SignalType.SELL ∧
    (generateSignal constGen zeroSignal).rsi ≠ 50 ∧
    (generateSignal constGen zeroSignal).signal ≠ SignalType.HOLD := by
  have h : generateSignal constGen zeroSignal =
      { signal := SignalType.SELL, strength := 0.7, reason := " RSI_OB", price := 100,
        sma_short := 100, sma_long := 100, rsi := 100, momentum := 0, volatility := 0 } := by
    have h31 : (31 : ℕ) ≤ 31 := le_refl 31
    have := generateSignal_replicate 31 (100 : ℝ) (List.replicate 31 1000)
      (List.replicate 31 100) zeroSignal h31 (by norm_num)
    simpa [constGen] using this
  rw [h]
  refine ⟨rfl, rfl, by norm_num, by decide⟩

/-- C4 (amended): if the engine holds at least 31 samples and all prices in
the history are equal to one nonzero constant, `generateSignal` returns
momentum 0 and volatility 0, but RSI equals 100 (the zero-average-loss
guard) rather than the neutral 50, and the resulting signal is SELL rather
than HOLD.  The nonzero hypothesis excludes the constant price 0, where the
C++ momentum and volatility are NaN (0/0), not 0. -/
theorem claim_C4_constant_prices (g : AlphaSignalGenerator) (init : AlphaSignal) (c : ℝ)
    (hn : 31 ≤ g.priceHistory.length) (hc : ∀ x ∈ g.priceHistory, x = c)
    (hc0 : c ≠ 0) :
    (generateSignal g init).momentum = 0 ∧
    (generateSignal g init).volatility = 0 ∧
    (generateSignal g init).rsi = 100 ∧
    (generateSignal g init).signal = SignalType.SELL := by
  obtain ⟨ph, vh, wh⟩ := g
  simp only at hn hc ⊢
  have hrep : ph = List.replicate ph.length c := List.eq_replicate_iff.mpr ⟨rfl, hc⟩
  rw [hrep, generateSignal_replicate ph.length c vh wh init hn hc0]
  norm_num

theorem claim_C4_witness :
    (31 ≤ constGen.priceHistory.length ∧ (∀ x ∈ constGen.priceHistory, x = 100) ∧
      (100 : ℝ) ≠ 0) ∧
    ((generateSignal constGen junkSignal).momentum = 0 ∧
     (generateSignal constGen junkSignal).volatility = 0 ∧
     (generateSignal constGen junkSignal).rsi = 100 ∧
     (generateSignal constGen junkSignal).signal = SignalType.SELL) :=
  ⟨⟨by simp [constGen], fun x hx => by simpa [constGen] using hx, by norm_num⟩,
   claim_C4_constant_prices constGen junkSignal 100 (by simp [constGen])
     (fun x hx => by simpa [constGen] using hx) (by norm_num)⟩

lemma gains_sum_nonneg (changes : List ℝ) :
    0 ≤ (changes.map (fun c => if 0 < c then c else 0)).sum := by
  apply List.sum_nonneg
  intro x hx
  rcases List.mem_map.1 hx with ⟨c, -, rfl⟩
  split
  · exact le_of_lt (by assumption)
  · exact le_refl 0

lemma losses_sum_nonneg (changes : List ℝ) :
    0 ≤ (changes.map (fun c => if 0 < c then 0 else -c)).sum := by
  apply List.sum_nonneg
  intro x hx
  rcases List.mem_map.1 hx with ⟨c, -, rfl⟩
  split
  · exact le_refl 0
  · exact neg_nonneg.mpr (le_of_not_lt (by assumption))

lemma rsi_formula_bounds (avgGain avgLoss : ℝ) (hg : 0 ≤ avgGain) (hl : 0 ≤ avgLoss)
    (_hne : ¬ avgLoss = 0) :
    0 ≤ 100 - 100 / (1 + avgGain / avgLoss) ∧ 100 - 100 / (1 + avgGain / avgLoss) ≤ 100 := by
  have hrs : 0 ≤ avgGain / avgLoss := div_nonneg hg hl
  have h1 : (0 : ℝ) < 1 + avgGain / avgLoss := by linarith
  have h2 : 100 / (1 + avgGain / avgLoss) ≤ 100 := div_le_self (by norm_num) (by linarith)
  have h3 : 0 < 100 / (1 + avgGain / avgLoss) := div_pos (by norm_num) h1
  constructor <;> linarith

/-- The RSI value is always within [0, 100]: the insufficient-data branch
returns 50, the zero-loss branch returns 100, and otherwise the relative
strength is nonnegative. -/
lemma calculateRSI_bounds (prices : List ℝ) (period : ℕ) :
    0 ≤ calculateRSI prices period ∧ calculateRSI prices period ≤ 100 := by
  simp only [calculateRSI]
  split
  · norm_num
  · split
    · norm_num
    · next h =>
        exact rsi_formula_bounds _ _
          (div_nonneg (gains_sum_nonneg _) (Nat.cast_nonneg _))
          (div_nonneg (losses_sum_nonneg _) (Nat.cast_nonneg _)) h

/-- The strength value is always within [0, 1]. -/
lemma calculateSignalStrength_bounds (s : SignalType) (rsi momentum : ℝ) :
    0 ≤ calculateSignalStrength s rsi momentum ∧
    calculateSignalStrength s rsi momentum ≤ 1 := by
  simp only [calculateSignalStrength]
  have hm : 0 ≤ min (|momentum| / 5) 0.2 :=
    le_min (div_nonneg (abs_nonneg _) (by norm_num)) (by norm_num)
  constructor
  · apply le_min ?_ (by norm_num)
    split
    · linarith
    · split
      · linarith
      · linarith
  · exact min_le_right _ 1

/-- With positive prices the volatility is nonnegative (the window mean is
then nonnegative and the square root is nonnegative). -/
lemma calculateVolatility_nonneg (prices : List ℝ) (period : ℕ)
    (hpos : ∀ x ∈ prices, 0 < x) :
    0 ≤ calculateVolatility prices period := by
  simp only [calculateVolatility]
  split
  · norm_num
  · have hmean : 0 ≤ calculateSMA prices period := by
      simp only [calculateSMA]
      split
      · norm_num
      · apply div_nonneg _ (Nat.cast_nonneg _)
        apply List.sum_nonneg
        intro x hx
        exact le_of_lt (hpos x ((List.drop_sublist _ _).subset hx))
    apply mul_nonneg _ (by norm_num)
    exact div_nonneg (Real.sqrt_nonneg _) hmean

lemma negGen_prices_eval :
    lastN negGen.priceHistory 20 = List.replicate 19 (-100) ++ [-90] := by
  simp only [negGen, lastN]
  norm_num [List.drop_append_of_le_length, List.drop_replicate]

lemma negGen_mean : calculateSMA negGen.priceHistory 20 = -99.5 := by
  simp only [calculateSMA]
  rw [if_neg (by simp [negGen]), negGen_prices_eval]
  simp only [List.sum_append, List.sum_replicate, nsmul_eq_mul, List.sum_cons,
    List.sum_nil]
  norm_num

lemma negGen_volatility_neg : calculateVolatility negGen.priceHistory 20 < 0 := by
  simp only [calculateVolatility]
  rw [if_neg (by simp [negGen]), negGen_mean, negGen_prices_eval]
  have h1 : ((List.replicate 19 (-100 : ℝ) ++ [-90]).map
      (fun x => (x - -99.5) * (x - -99.5))).sum = 95 := by
    simp only [List.map_append, List.map_replicate, List.sum_append, List.sum_replicate,
      nsmul_eq_mul, List.map_cons, List.map_nil, List.sum_cons, List.sum_nil]
    norm_num
  rw [h1]
  apply mul_neg_of_neg_of_pos _ (by norm_num : (0 : ℝ) < 100)
  apply div_neg_of_pos_of_neg _ (by norm_num : (-99.5 : ℝ) < 0)
  apply Real.sqrt_pos.mpr
  apply div_pos (by norm_num) (by norm_num)

/-- C9 is wrong on the code in two ways.  First, prices are arbitrary
doubles, and with a window of negative prices the volatility
`sqrt(variance)/mean*100` is negative (the mean is negative).  Second, with
fewer than 31 samples the returned `rsi` field is the indeterminate content
of the uninitialized C++ local, which need not lie in [0, 100]. -/
theorem claim_C9_counterexample :
    (generateSignal negGen zeroSignal).volatility < 0 ∧
    (generateSignal initGenerator junkSignal).rsi < 0 := by
  constructor
  · have hne : ¬ (negGen.priceHistory.length < LONG_MA_PERIOD + 1) := by
      simp [negGen, LONG_MA_PERIOD]
    simp only [generateSignal, if_neg hne]
    show calculateVolatility negGen.priceHistory VOLATILITY_PERIOD < 0
    exact negGen_volatility_neg
  · have h : (generateSignal initGenerator junkSignal).rsi = -1 := by
      norm_num [generateSignal, initGenerator, junkSignal, LONG_MA_PERIOD]
    rw [h]
    norm_num

/-- C9 (amended): whenever the engine holds at least 31 samples and all
prices in the history are positive, the snapshot satisfies
`0 ≤ rsi ≤ 100`, `0 ≤ strength ≤ 1` and `volatility ≥ 0`. -/
theorem claim_C9_indicator_bounds (g : AlphaSignalGenerator) (init : AlphaSignal)
    (hn : 31 ≤ g.priceHistory.length) (hpos : ∀ x ∈ g.priceHistory, 0 < x) :
    0 ≤ (generateSignal g init).rsi ∧ (generateSignal g init).rsi ≤ 100 ∧
    0 ≤ (generateSignal g init).strength ∧ (generateSignal g init).strength ≤ 1 ∧
    0 ≤ (generateSignal g init).volatility := by
  have hne : ¬ (g.priceHistory.length < LONG_MA_PERIOD + 1) := by
    simp only [LONG_MA_PERIOD]
    omega
  simp only [generateSignal, if_neg hne]
  exact ⟨(calculateRSI_bounds _ _).1, (calculateRSI_bounds _ _).2,
    (calculateSignalStrength_bounds _ _ _).1, (calculateSignalStrength_bounds _ _ _).2,
    calculateVolatility_nonneg _ _ hpos⟩

theorem claim_C9_witness :
    (31 ≤ constGen.priceHistory.length ∧ ∀ x ∈ constGen.priceHistory, (0 : ℝ) < x) ∧
    (0 ≤ (generateSignal constGen zeroSignal).rsi ∧
     (generateSignal constGen zeroSignal).rsi ≤ 100 ∧
     0 ≤ (generateSignal constGen zeroSignal).strength ∧
     (generateSignal constGen zeroSignal).strength ≤ 1 ∧
     0 ≤ (generateSignal constGen zeroSignal).volatility) :=
  ⟨⟨by simp [constGen],
    fun x hx => by
      have hx' : x = (100 : ℝ) := by simpa [constGen] using hx
      rw [hx']
      norm_num⟩,
   claim_C9_indicator_bounds constGen zeroSignal (by simp [constGen])
     (fun x hx => by
       have hx' : x = (100 : ℝ) := by simpa [constGen] using hx
       rw [hx']
       norm_num)⟩

end ApexLOB
